import Mathlib

/-!
Verification of `src/caffe/util/cpu_info.cpp` (caffecombine repository).

The file shallowly embeds the two components of the source file:

* `Collection` — the `/proc/cpuinfo` aggregation (`Processor`,
  `collectBasicCpuInformation`, `updateCpuInformation`,
  `extractProcessorSpeedFromModelName`);
* `OpenMpManager` — the affinity bookkeeping (`getCurrentCoreSet`,
  `selectAllCoreCpus`, `getPhysicalCoreId`, `isThreadsBindAllowed` and the
  binding operations).

Modelling conventions:

* C strings become `List Char`; the end of the list plays the role of the
  NUL terminator.
* C `double` arithmetic is modelled exactly over `ℚ` (the values the
  claims exercise are small decimal literals for which exact rational
  arithmetic agrees with the IEEE evaluation).
* C `unsigned` stores of floating values go through `cToUnsigned`, which
  returns `none` when the truncated value is not representable (that
  conversion is undefined behaviour in C++).
* `cpu_set_t` becomes `Finset ℕ`; `sched_setaffinity` and
  `omp_set_num_threads` calls are recorded as values of `AffinityAction`.
* An expression whose evaluation is undefined behaviour in the source
  (`x % 0`) makes the embedded function return `none`.
-/

/-- One record of `/proc/cpuinfo`, mirroring `struct Processor`
(`cpu_info.cpp`, constructor at lines 9-15).  All fields default to 0. -/
structure Processor where
  processor : ℕ
  physicalId : ℕ
  siblings : ℕ
  coreId : ℕ
  cpuCores : ℕ
deriving DecidableEq

/-- `Collection::updateCpuInformation` (lines 175-183): the running state is
the pair `(totalNumberOfSockets, totalNumberOfCpuCores)`; when the distinct
count is unchanged nothing happens, otherwise the count is stored and the
current record contributes its `cpuCores`.  Both members are 32-bit
`unsigned`, so the accumulation at line 182 wraps modulo `2 ^ 32` (the
`cpuCores` field is itself `unsigned`, and `(a + b % 2 ^ 32) % 2 ^ 32 =
(a + b) % 2 ^ 32`, so applying the reduction once here is exact). -/
def updateCpuInformation (st : ℕ × ℕ) (p : Processor)
    (numberOfUniquePhysicalId : ℕ) : ℕ × ℕ :=
  if st.1 = numberOfUniquePhysicalId then st
  else (numberOfUniquePhysicalId, (st.2 + p.cpuCores) % 2 ^ 32)

/-- One iteration of the loop in `Collection::collectBasicCpuInformation`
(lines 166-173): insert the physical id into `uniquePhysicalId`, then call
`updateCpuInformation` with the new distinct count.  The
`numberOfUniquePhysicalId` parameter (line 176) is `unsigned`, so the
`uniquePhysicalId.size()` argument at line 171 is converted modulo
`2 ^ 32` at the call. -/
def collectStep (st : Finset ℕ × ℕ × ℕ) (p : Processor) :
    Finset ℕ × ℕ × ℕ :=
  let uniq := insert p.physicalId st.1
  let sc := updateCpuInformation (st.2.1, st.2.2) p (uniq.card % 2 ^ 32)
  (uniq, sc.1, sc.2)

/-- `Collection::collectBasicCpuInformation` (lines 166-173), starting from
the zero-initialised state of the `Collection` constructor (lines 17-27).
Result: `(uniquePhysicalId, totalNumberOfSockets, totalNumberOfCpuCores)`. -/
def collectBasicCpuInformation (processors : List Processor) :
    Finset ℕ × ℕ × ℕ :=
  processors.foldl collectStep (∅, 0, 0)

/-- Modelled from the claim wording (spec §8, bullet 1): the sum of
`cpu cores` values taken once per distinct socket, at the first record at
which each socket id is newly seen, in source order. -/
def firstOccurrenceCoreSum : List Processor → Finset ℕ → ℕ
  | [], _ => 0
  | p :: rest, seen =>
    if p.physicalId ∈ seen then firstOccurrenceCoreSum rest seen
    else p.cpuCores + firstOccurrenceCoreSum rest (insert p.physicalId seen)

/-- `strstr(text, "@")` (line 143): the suffix of the list starting at the
first occurrence of the character, or `none` (NULL). -/
def strstrAt : List Char → Option (List Char)
  | [] => none
  | c :: rest => if c = '@' then some (c :: rest) else strstrAt rest

/-- C `isspace` in the default locale: space, tab, newline, vertical tab,
form feed, carriage return. -/
def isSpaceC (c : Char) : Bool :=
  c.toNat = 32 || c.toNat = 9 || c.toNat = 10 || c.toNat = 11 ||
    c.toNat = 12 || c.toNat = 13

/-- ASCII decimal digit test. -/
def isDigitC (c : Char) : Bool :=
  48 ≤ c.toNat && c.toNat ≤ 57

/-- Numeric value of an ASCII digit character. -/
def digitVal (c : Char) : ℕ :=
  c.toNat - 48

/-- Leading run of decimal digits, as digit values, together with the rest
of the input. -/
def takeDigits : List Char → List ℕ × List Char
  | [] => ([], [])
  | c :: r =>
    if isDigitC c then
      let pr := takeDigits r
      (digitVal c :: pr.1, pr.2)
    else ([], c :: r)

/-- Value of a digit-value list read most significant first. -/
def digitsToNat (ds : List ℕ) : ℕ :=
  ds.foldl (fun a d => 10 * a + d) 0

/-- Exponent digits of `strtod`: if no digit follows the (optional) sign the
whole exponent part is rolled back to `orig` (the position of the `e`). -/
def expDigits (r orig : List Char) (sg : ℤ) : ℤ × List Char :=
  let pr := takeDigits r
  if pr.1.isEmpty then (0, orig) else (sg * (digitsToNat pr.1 : ℤ), pr.2)

/-- Optional exponent part of `strtod` (`e`/`E`, optional sign, digits). -/
def parseExp (t : List Char) : ℤ × List Char :=
  match t with
  | 'e' :: r =>
    (match r with
     | '+' :: r2 => expDigits r2 t 1
     | '-' :: r2 => expDigits r2 t (-1)
     | _ => expDigits r t 1)
  | 'E' :: r =>
    (match r with
     | '+' :: r2 => expDigits r2 t 1
     | '-' :: r2 => expDigits r2 t (-1)
     | _ => expDigits r t 1)
  | _ => (0, t)

/-- Mantissa value: integer digits plus fraction digits scaled down. -/
def mantissaQ (ds fs : List ℕ) : ℚ :=
  (digitsToNat ds : ℚ) + (digitsToNat fs : ℚ) / (10 : ℚ) ^ fs.length

/-- `strtod` (line 149), modelled on decimal inputs (optional whitespace,
optional sign, digits with at most one decimal point, optional decimal
exponent); hexadecimal, infinity and NaN forms are not modelled because no
`model name` line uses them.  Returns the parsed value (exact, over `ℚ`)
and the end-pointer suffix; if no conversion can be performed the value is
0 and the end pointer is the original input, as the C standard requires. -/
def strtodQ (s : List Char) : ℚ × List Char :=
  let t0 := s.dropWhile isSpaceC
  let sgT :=
    match t0 with
    | '+' :: r => ((1 : ℚ), r)
    | '-' :: r => ((-1 : ℚ), r)
    | _ => ((1 : ℚ), t0)
  let dsT := takeDigits sgT.2
  match dsT.2 with
  | '.' :: r =>
    let fsT := takeDigits r
    if dsT.1.isEmpty ∧ fsT.1.isEmpty then ((0 : ℚ), s)
    else
      let exT := parseExp fsT.2
      (sgT.1 * mantissaQ dsT.1 fsT.1 * (10 : ℚ) ^ exT.1, exT.2)
  | _ =>
    if dsT.1.isEmpty then ((0 : ℚ), s)
    else
      let exT := parseExp dsT.2
      (sgT.1 * (digitsToNat dsT.1 : ℚ) * (10 : ℚ) ^ exT.1, exT.2)

/-- `strncmp(u, pat, 3) == 0` for a three-character `pat` (`"MHz"`/`"GHz"`,
lines 155-156): the first three characters of `u` are exactly `pat` (a
shorter `u` mismatches because its NUL terminator stops the comparison). -/
def strncmp3 (u pat : List Char) : Bool :=
  decide (u.take 3 = pat)

/-- Truncation of a rational toward zero, as C float-to-integer conversion
does. -/
def truncQ (q : ℚ) : ℤ :=
  if 0 ≤ q then ⌊q⌋ else ⌈q⌉

/-- Conversion of a `double` value to `unsigned` (32 bit): truncate toward
zero; if the truncated value is not representable the conversion is
undefined behaviour, modelled as `none`. -/
def cToUnsigned (q : ℚ) : Option ℕ :=
  let t := truncQ q
  if 0 ≤ t ∧ t < 2 ^ 32 then some t.toNat else none

/-- `Collection::extractProcessorSpeedFromModelName` (lines 142-164).
State-passing form: takes the current `processorSpeedMHz` and the
`model name` value, returns the new `processorSpeedMHz` (or `none` on an
unrepresentable store). -/
def extractProcessorSpeedFromModelName (processorSpeedMHz : ℕ)
    (text : List Char) : Option ℕ :=
  match strstrAt text with
  | none => some processorSpeedMHz
  | some atSuffix =>
    if processorSpeedMHz ≠ 0 then some processorSpeedMHz
    else
      let pr := strtodQ atSuffix.tail
      let speed := pr.1
      let unitTok := pr.2.dropWhile isSpaceC
      let isMHz := strncmp3 unitTok ['M', 'H', 'z']
      let isGHz := strncmp3 unitTok ['G', 'H', 'z']
      let isGHzPossible := decide (speed < 100)
      if isGHz || (isGHzPossible && !isMHz) then
        cToUnsigned (1000 * speed + 1 / 2)
      else
        cToUnsigned (speed + 1 / 2)

/-- The fixed list of parallelism-related environment variables checked at
construction (`openMpEnvVars`, lines 198-208). -/
def openMpEnvVars : List String :=
  ["OMP_CANCELLATION", "OMP_DISPLAY_ENV", "OMP_DEFAULT_DEVICE", "OMP_DYNAMIC",
   "OMP_MAX_ACTIVE_LEVELS", "OMP_MAX_TASK_PRIORITY", "OMP_NESTED",
   "OMP_NUM_THREADS", "OMP_PROC_BIND", "OMP_PLACES", "OMP_STACKSIZE",
   "OMP_SCHEDULE", "OMP_THREAD_LIMIT", "OMP_WAIT_POLICY", "GOMP_CPU_AFFINITY",
   "GOMP_DEBUG", "GOMP_STACKSIZE", "GOMP_SPINCOUNT", "GOMP_RTEMS_THREAD_POOLS",
   "KMP_AFFINITY", "KMP_NUM_THREADS", "MIC_KMP_AFFINITY",
   "MIC_OMP_NUM_THREADS", "MIC_OMP_PROC_BIND", "PHI_KMP_AFFINITY",
   "PHI_OMP_NUM_THREADS", "PHI_KMP_PLACE_THREADS", "MKL_NUM_THREADS",
   "MKL_DYNAMIC", "MKL_DOMAIN_NUM_THREADS"]

/-- State of the `OpenMpManager` singleton: the two policy flags and the two
cached processor sets (`cpu_set_t` modelled as `Finset ℕ`). -/
structure OpenMpManagerState where
  isAnyOpenMpEnvVarSpecified : Bool
  isGpuEnabled : Bool
  currentCpuSet : Finset ℕ
  currentCoreSet : Finset ℕ
deriving DecidableEq

/-- An observable effect of a binding operation.  `sched_setaffinity` and
`omp_set_num_threads` calls are recorded; `fatalError` stands for the
aborting `LOG(FATAL)` at line 331, and `undefinedStep` for an evaluation
that is undefined behaviour in the source. -/
inductive AffinityAction where
  | setAffinity (mask : Finset ℕ)
  | setNumThreads (n : ℕ)
  | fatalError
  | undefinedStep
deriving DecidableEq

/-- `OpenMpManager::getDefaultCpuSet` (lines 274-280): all processor ids
known to the topology. -/
def getDefaultCpuSet (numberOfProcessors : ℕ) : Finset ℕ :=
  Finset.range numberOfProcessors

/-- One iteration of the loop in `OpenMpManager::getCurrentCoreSet`
(lines 295-303), threading the pair `(usedCoreSet, currentCoreSet)`.
`processorId % totalNumberOfCpuCores` with a zero divisor is undefined
behaviour in C++, modelled as `none`. -/
def coreSetStep (totalNumberOfCpuCores : ℕ) (currentCpuSet : Finset ℕ)
    (st : Option (Finset ℕ × Finset ℕ)) (processorId : ℕ) :
    Option (Finset ℕ × Finset ℕ) :=
  match st with
  | none => none
  | some (usedCoreSet, currentCoreSet) =>
    if processorId ∈ currentCpuSet then
      if totalNumberOfCpuCores = 0 then none
      else
        let coreId := processorId % totalNumberOfCpuCores
        if coreId ∈ usedCoreSet then some (usedCoreSet, currentCoreSet)
        else some (insert coreId usedCoreSet, insert processorId currentCoreSet)
    else some (usedCoreSet, currentCoreSet)

/-- `OpenMpManager::getCurrentCoreSet` (lines 287-304), with the
intermediate `usedCoreSet` kept in the result. -/
def getCurrentCoreSetAux (numberOfProcessors totalNumberOfCpuCores : ℕ)
    (currentCpuSet : Finset ℕ) : Option (Finset ℕ × Finset ℕ) :=
  (List.range numberOfProcessors).foldl
    (coreSetStep totalNumberOfCpuCores currentCpuSet) (some (∅, ∅))

/-- `OpenMpManager::getCurrentCoreSet` (lines 287-304): the final
`currentCoreSet` (one representative processor per core bucket), or `none`
when the computation hits undefined behaviour. -/
def getCurrentCoreSet (numberOfProcessors totalNumberOfCpuCores : ℕ)
    (currentCpuSet : Finset ℕ) : Option (Finset ℕ) :=
  (getCurrentCoreSetAux numberOfProcessors totalNumberOfCpuCores
    currentCpuSet).map (fun pr => pr.2)

/-- The `while` loop of `OpenMpManager::selectAllCoreCpus` (lines 311-317):
starting from `processorId`, step by `totalNumberOfCpuCores`, collecting the
visited members of `currentCpuSet` below `numberOfProcessors`.  The loop
terminates because the step is positive; the fuel argument only bounds the
recursion and is chosen large enough to be immaterial. -/
def selectAllCoreCpusLoop (numberOfProcessors totalNumberOfCpuCores : ℕ)
    (currentCpuSet : Finset ℕ) : ℕ → ℕ → Finset ℕ → Finset ℕ
  | 0, _, acc => acc
  | fuel + 1, processorId, acc =>
    if processorId < numberOfProcessors then
      selectAllCoreCpusLoop numberOfProcessors totalNumberOfCpuCores
        currentCpuSet fuel (processorId + totalNumberOfCpuCores)
        (if processorId ∈ currentCpuSet then insert processorId acc else acc)
    else acc

/-- `OpenMpManager::selectAllCoreCpus` (lines 306-318): the sibling set of a
physical core — every available processor congruent to `physicalCoreId`
modulo `totalNumberOfCpuCores`.  The initial `physicalCoreId % total` is
undefined behaviour when the total is zero, modelled as `none`. -/
def selectAllCoreCpus (numberOfProcessors totalNumberOfCpuCores : ℕ)
    (currentCpuSet : Finset ℕ) (physicalCoreId : ℕ) : Option (Finset ℕ) :=
  if totalNumberOfCpuCores = 0 then none
  else
    some (selectAllCoreCpusLoop numberOfProcessors totalNumberOfCpuCores
      currentCpuSet (numberOfProcessors + 1)
      (physicalCoreId % totalNumberOfCpuCores) ∅)

/-- The members of `s` below `P`, listed in ascending order — the order in
which the scanning loops of `OpenMpManager` visit them. -/
def ascendingMembers (P : ℕ) (s : Finset ℕ) : List ℕ :=
  (List.range P).filter (fun p => decide (p ∈ s))

/-- `OpenMpManager::getPhysicalCoreId` (lines 320-333): scan processor ids
in ascending order and return the one at which the `logicalCoreId` counter
runs out; `none` models the `LOG(FATAL)` abort when the index is beyond the
members of `currentCoreSet`. -/
def getPhysicalCoreId (numberOfProcessors : ℕ) (currentCoreSet : Finset ℕ)
    (logicalCoreId : ℕ) : Option ℕ :=
  (ascendingMembers numberOfProcessors currentCoreSet)[logicalCoreId]?

/-- `OpenMpManager::isThreadsBindAllowed` (lines 335-337). -/
def isThreadsBindAllowed (st : OpenMpManagerState) : Bool :=
  !st.isAnyOpenMpEnvVarSpecified && !st.isGpuEnabled

/-- `OpenMpManager::bindCurrentThreadToLogicalCoreCpu` (lines 344-351): pin
the calling thread to the single representative processor of the given
logical core index. -/
def bindCurrentThreadToLogicalCoreCpu (numberOfProcessors : ℕ)
    (st : OpenMpManagerState) (logicalCoreId : ℕ) : List AffinityAction :=
  match getPhysicalCoreId numberOfProcessors st.currentCoreSet logicalCoreId with
  | none => [AffinityAction.fatalError]
  | some physicalCoreId => [AffinityAction.setAffinity {physicalCoreId}]

/-- `OpenMpManager::bindCurrentThreadToLogicalCoreCpus` (lines 353-360): pin
the calling thread to the full sibling set of the given logical core
index. -/
def bindCurrentThreadToLogicalCoreCpus
    (numberOfProcessors totalNumberOfCpuCores : ℕ) (st : OpenMpManagerState)
    (logicalCoreId : ℕ) : List AffinityAction :=
  match getPhysicalCoreId numberOfProcessors st.currentCoreSet logicalCoreId with
  | none => [AffinityAction.fatalError]
  | some physicalCoreId =>
    match selectAllCoreCpus numberOfProcessors totalNumberOfCpuCores
        st.currentCpuSet physicalCoreId with
    | none => [AffinityAction.undefinedStep]
    | some mask => [AffinityAction.setAffinity mask]

/-- `OpenMpManager::bindCurrentThreadToNonPrimaryCoreIfPossible`
(lines 236-243). -/
def bindCurrentThreadToNonPrimaryCoreIfPossible
    (numberOfProcessors totalNumberOfCpuCores : ℕ) (st : OpenMpManagerState) :
    List AffinityAction :=
  if isThreadsBindAllowed st then
    let totalNumberOfAvailableCores := st.currentCoreSet.card
    let logicalCoreToBindTo := if 1 < totalNumberOfAvailableCores then 1 else 0
    bindCurrentThreadToLogicalCoreCpus numberOfProcessors
      totalNumberOfCpuCores st logicalCoreToBindTo
  else []

/-- `OpenMpManager::bindOpenMpThreads` (lines 245-257):
`setOpenMpThreadNumberLimit` (line 340-342) sets the thread count to
`CPU_COUNT(currentCoreSet)`, then the parallel region runs one thread per
index below that limit, each pinning itself to its own representative. -/
def bindOpenMpThreads (numberOfProcessors : ℕ)
    (st : OpenMpManagerState) : List AffinityAction :=
  if isThreadsBindAllowed st then
    AffinityAction.setNumThreads st.currentCoreSet.card ::
      (List.range st.currentCoreSet.card).flatMap
        (fun logicalCoreId =>
          bindCurrentThreadToLogicalCoreCpu numberOfProcessors st logicalCoreId)
  else []

/-- `OpenMpManager::getCurrentCpuSet` (lines 268-272): the affinity mask
reported by `sched_getaffinity`, or the `getDefaultCpuSet` fallback when
that call fails (`osAffinity = none`). -/
def getCurrentCpuSet (numberOfProcessors : ℕ)
    (osAffinity : Option (Finset ℕ)) : Finset ℕ :=
  match osAffinity with
  | some s => s
  | none => getDefaultCpuSet numberOfProcessors

/-- The `OpenMpManager` constructor (lines 213-217): `getOpenMpEnvVars`
(lines 259-266), then `getCurrentCpuSet`, then `getCurrentCoreSet`.
`env` is the process environment (presence of each variable), and `gpu0`
is the initial value of the `isGpuEnabled` field (declared in the header,
which is not part of the repository sources).  The result is `none` when
construction hits undefined behaviour. -/
def constructOpenMpManager (env : String → Bool) (gpu0 : Bool)
    (numberOfProcessors totalNumberOfCpuCores : ℕ)
    (osAffinity : Option (Finset ℕ)) : Option OpenMpManagerState :=
  let isAnyOpenMpEnvVarSpecified := openMpEnvVars.any env
  let currentCpuSet := getCurrentCpuSet numberOfProcessors osAffinity
  match getCurrentCoreSet numberOfProcessors totalNumberOfCpuCores
      currentCpuSet with
  | none => none
  | some currentCoreSet =>
    some ⟨isAnyOpenMpEnvVarSpecified, gpu0, currentCpuSet, currentCoreSet⟩

/-- The operations available on the constructed singleton (lines 224-232 and
the binding entry points). -/
inductive MgrOp where
  | setGpuEnabled
  | setGpuDisabled
  | bindNonPrimary
  | bindThreads
  | bindOne (logicalCoreId : ℕ)
  | bindFull (logicalCoreId : ℕ)
deriving DecidableEq

/-- Effect of each post-construction operation on the manager state,
together with the affinity calls it performs.  Only the GPU toggles
(lines 224-232) assign a member field; every other operation leaves the
state untouched, as the corresponding C++ bodies write only locals. -/
def applyOp (numberOfProcessors totalNumberOfCpuCores : ℕ) (op : MgrOp)
    (st : OpenMpManagerState) : OpenMpManagerState × List AffinityAction :=
  match op with
  | MgrOp.setGpuEnabled => ({ st with isGpuEnabled := true }, [])
  | MgrOp.setGpuDisabled => ({ st with isGpuEnabled := false }, [])
  | MgrOp.bindNonPrimary =>
    (st, bindCurrentThreadToNonPrimaryCoreIfPossible numberOfProcessors
      totalNumberOfCpuCores st)
  | MgrOp.bindThreads =>
    (st, bindOpenMpThreads numberOfProcessors st)
  | MgrOp.bindOne k => (st, bindCurrentThreadToLogicalCoreCpu
      numberOfProcessors st k)
  | MgrOp.bindFull k => (st, bindCurrentThreadToLogicalCoreCpus
      numberOfProcessors totalNumberOfCpuCores st k)

/-- The buckets already used after scanning processor ids below `P`. -/
def coreBucketImage (P T : ℕ) (cpuSet : Finset ℕ) : Finset ℕ :=
  ((Finset.range P).filter (fun p => p ∈ cpuSet)).image (fun p => p % T)

/-- The representatives chosen after scanning processor ids below `P`: the
available ids whose bucket is not hit by any smaller available id. -/
def coreRepresentativesSpec (P T : ℕ) (cpuSet : Finset ℕ) : Finset ℕ :=
  (Finset.range P).filter
    (fun x => x ∈ cpuSet ∧ ∀ y, y < x → y ∈ cpuSet → y % T ≠ x % T)

/-- The sibling set computed by `selectAllCoreCpus`: all available
processors in the same core bucket as `physicalCoreId`. -/
def siblingSet (P T : ℕ) (cpuSet : Finset ℕ) (physicalCoreId : ℕ) :
    Finset ℕ :=
  (Finset.range P).filter
    (fun q => q ∈ cpuSet ∧ q % T = physicalCoreId % T)

theorem digitVal_0 : digitVal '0' = 0 := rfl

theorem digitVal_1 : digitVal '1' = 1 := rfl

theorem digitVal_2 : digitVal '2' = 2 := rfl

theorem digitVal_3 : digitVal '3' = 3 := rfl

theorem digitVal_4 : digitVal '4' = 4 := rfl

theorem digitVal_5 : digitVal '5' = 5 := rfl

theorem digitVal_6 : digitVal '6' = 6 := rfl

theorem digitVal_7 : digitVal '7' = 7 := rfl

theorem digitVal_8 : digitVal '8' = 8 := rfl

theorem digitVal_9 : digitVal '9' = 9 := rfl

theorem collect_fold_invariant (ps : List Processor) :
    ∀ (uniq : Finset ℕ) (c : ℕ),
      ps.foldl collectStep (uniq, uniq.card % 2 ^ 32, c % 2 ^ 32) =
        (ps.foldl (fun u p => insert p.physicalId u) uniq,
         (ps.foldl (fun u p => insert p.physicalId u) uniq).card % 2 ^ 32,
         (c + firstOccurrenceCoreSum ps uniq) % 2 ^ 32) := by
  induction ps with
  | nil => intro uniq c; simp [firstOccurrenceCoreSum]
  | cons p rest ih =>
    intro uniq c
    by_cases h : p.physicalId ∈ uniq
    · have hins : insert p.physicalId uniq = uniq := Finset.insert_eq_self.mpr h
      have hstep : collectStep (uniq, uniq.card % 2 ^ 32, c % 2 ^ 32) p =
          (uniq, uniq.card % 2 ^ 32, c % 2 ^ 32) := by
        simp [collectStep, updateCpuInformation, hins]
      simp only [List.foldl_cons, hstep, ih, hins, firstOccurrenceCoreSum,
        if_pos h]
    · have hcard : (insert p.physicalId uniq).card = uniq.card + 1 :=
        Finset.card_insert_of_not_mem h
      have hne : ¬(uniq.card % 2 ^ 32 = (uniq.card + 1) % 2 ^ 32) := by
        have h32 : (2 : ℕ) ^ 32 = 4294967296 := by norm_num
        rw [h32]
        omega
      have hmod : (c % 2 ^ 32 + p.cpuCores) % 2 ^ 32 =
          (c + p.cpuCores) % 2 ^ 32 := Nat.mod_add_mod c (2 ^ 32) p.cpuCores
      have hupdate : updateCpuInformation (uniq.card % 2 ^ 32, c % 2 ^ 32) p
          ((insert p.physicalId uniq).card % 2 ^ 32) =
          ((insert p.physicalId uniq).card % 2 ^ 32,
            (c + p.cpuCores) % 2 ^ 32) := by
        unfold updateCpuInformation
        rw [hcard, if_neg hne, hmod]
      have hstep : collectStep (uniq, uniq.card % 2 ^ 32, c % 2 ^ 32) p =
          (insert p.physicalId uniq, (insert p.physicalId uniq).card % 2 ^ 32,
            (c + p.cpuCores) % 2 ^ 32) := by
        show (insert p.physicalId uniq,
          (updateCpuInformation (uniq.card % 2 ^ 32, c % 2 ^ 32) p
            ((insert p.physicalId uniq).card % 2 ^ 32)).1,
          (updateCpuInformation (uniq.card % 2 ^ 32, c % 2 ^ 32) p
            ((insert p.physicalId uniq).card % 2 ^ 32)).2) = _
        rw [hupdate]
      simp only [List.foldl_cons, hstep, ih, firstOccurrenceCoreSum, if_neg h,
        Nat.add_assoc]

theorem foldl_insert_physicalId (ps : List Processor) :
    ∀ uniq : Finset ℕ,
      ps.foldl (fun u p => insert p.physicalId u) uniq =
        uniq ∪ (ps.map (fun p => p.physicalId)).toFinset := by
  induction ps with
  | nil => intro uniq; simp
  | cons p rest ih =>
    intro uniq
    simp only [List.foldl_cons, ih, List.map_cons, List.toFinset_cons]
    ext x
    simp only [Finset.mem_union, Finset.mem_insert, List.mem_toFinset]
    tauto

/-- Claim C1 (amended): for every parsed topology input, the derived socket
count equals the number of distinct `physical id` values across all records
reduced modulo `2 ^ 32`, and the derived total physical core count equals
the sum, over distinct sockets in source order, of the `cpu cores` value of
the first record at which each socket id is newly seen, reduced modulo
`2 ^ 32` — both counters are 32-bit `unsigned`, so the accumulation at line
182 (and the size conversion at line 171/176) wraps; on inputs whose
aggregates stay below `2 ^ 32` the reductions are identities and the
original statement is recovered. -/
theorem c1_socket_core_aggregation (ps : List Processor) :
    (collectBasicCpuInformation ps).2.1 =
      ((ps.map (fun p => p.physicalId)).toFinset).card % 2 ^ 32 ∧
    (collectBasicCpuInformation ps).2.2 =
      firstOccurrenceCoreSum ps ∅ % 2 ^ 32 := by
  have h := collect_fold_invariant ps ∅ 0
  have h0 : ((∅ : Finset ℕ), (∅ : Finset ℕ).card % 2 ^ 32, 0 % 2 ^ 32) =
      ((∅ : Finset ℕ), 0, 0) := by simp
  rw [h0] at h
  unfold collectBasicCpuInformation
  rw [h, foldl_insert_physicalId]
  constructor
  · simp
  · simp

/-- Claim C1, counterexample to the unreduced sum: two records with
distinct `physical id` values, each reporting `2 ^ 31` for `cpu cores`
(each representable in `unsigned`), make the program wrap its 32-bit
accumulator to 0, while the plain first-occurrence sum of the claim is
`2 ^ 32`. -/
theorem c1_socket_core_aggregation_counterexample :
    (collectBasicCpuInformation
      [⟨0, 0, 0, 0, 2147483648⟩, ⟨1, 1, 0, 0, 2147483648⟩]).2.2 = 0 ∧
    firstOccurrenceCoreSum
      [⟨0, 0, 0, 0, 2147483648⟩, ⟨1, 1, 0, 0, 2147483648⟩] ∅ =
      4294967296 ∧
    (collectBasicCpuInformation
      [⟨0, 0, 0, 0, 2147483648⟩, ⟨1, 1, 0, 0, 2147483648⟩]).2.2 ≠
      firstOccurrenceCoreSum
        [⟨0, 0, 0, 0, 2147483648⟩, ⟨1, 1, 0, 0, 2147483648⟩] ∅ := by
  refine ⟨by decide, by decide, by decide⟩

theorem coreBucketImage_mem (P T : ℕ) (cpuSet : Finset ℕ) (b : ℕ) :
    b ∈ coreBucketImage P T cpuSet ↔
      ∃ y, y < P ∧ y ∈ cpuSet ∧ y % T = b := by
  simp only [coreBucketImage, Finset.mem_image, Finset.mem_filter,
    Finset.mem_range]
  constructor
  · rintro ⟨y, ⟨hy, hmem⟩, hb⟩; exact ⟨y, hy, hmem, hb⟩
  · rintro ⟨y, hy, hmem, hb⟩; exact ⟨y, ⟨hy, hmem⟩, hb⟩

theorem getCurrentCoreSetAux_eq (T : ℕ) (hT : 0 < T) (cpuSet : Finset ℕ) :
    ∀ P, getCurrentCoreSetAux P T cpuSet =
      some (coreBucketImage P T cpuSet, coreRepresentativesSpec P T cpuSet) := by
  intro P
  induction P with
  | zero =>
    simp [getCurrentCoreSetAux, coreBucketImage, coreRepresentativesSpec]
  | succ n ih =>
    unfold getCurrentCoreSetAux at ih ⊢
    rw [List.range_succ, List.foldl_append, List.foldl_cons, List.foldl_nil,
      ih]
    have himg : coreBucketImage (n + 1) T cpuSet =
        (if n ∈ cpuSet then insert (n % T) (coreBucketImage n T cpuSet)
          else coreBucketImage n T cpuSet) := by
      unfold coreBucketImage
      rw [Finset.range_succ, Finset.filter_insert]
      by_cases hmem : n ∈ cpuSet
      · rw [if_pos hmem, if_pos hmem, Finset.image_insert]
      · rw [if_neg hmem, if_neg hmem]
    have hrep : coreRepresentativesSpec (n + 1) T cpuSet =
        (if n ∈ cpuSet ∧ ∀ y, y < n → y ∈ cpuSet → y % T ≠ n % T then
          insert n (coreRepresentativesSpec n T cpuSet)
          else coreRepresentativesSpec n T cpuSet) := by
      unfold coreRepresentativesSpec
      rw [Finset.range_succ, Finset.filter_insert]
    by_cases hmem : n ∈ cpuSet
    · by_cases hused : n % T ∈ coreBucketImage n T cpuSet
      · have hstep : coreSetStep T cpuSet
            (some (coreBucketImage n T cpuSet,
              coreRepresentativesSpec n T cpuSet)) n =
            some (coreBucketImage n T cpuSet,
              coreRepresentativesSpec n T cpuSet) := by
          simp [coreSetStep, hmem, hused, Nat.pos_iff_ne_zero.mp hT]
        rw [hstep, himg, hrep]
        obtain ⟨y, hy, hymem, hyb⟩ := (coreBucketImage_mem n T cpuSet _).mp hused
        have h1 : insert (n % T) (coreBucketImage n T cpuSet) =
            coreBucketImage n T cpuSet := Finset.insert_eq_self.mpr hused
        have h2 : ¬(n ∈ cpuSet ∧ ∀ y, y < n → y ∈ cpuSet → y % T ≠ n % T) := by
          rintro ⟨-, hall⟩; exact hall y hy hymem hyb
        rw [if_pos hmem, if_neg h2, h1]
      · have hstep : coreSetStep T cpuSet
            (some (coreBucketImage n T cpuSet,
              coreRepresentativesSpec n T cpuSet)) n =
            some (insert (n % T) (coreBucketImage n T cpuSet),
              insert n (coreRepresentativesSpec n T cpuSet)) := by
          simp [coreSetStep, hmem, hused, Nat.pos_iff_ne_zero.mp hT]
        rw [hstep, himg, hrep]
        have h2 : n ∈ cpuSet ∧ ∀ y, y < n → y ∈ cpuSet → y % T ≠ n % T := by
          refine ⟨hmem, fun y hy hymem hyb => hused ?_⟩
          exact (coreBucketImage_mem n T cpuSet _).mpr ⟨y, hy, hymem, hyb⟩
        rw [if_pos hmem, if_pos h2]
    · have hstep : coreSetStep T cpuSet
          (some (coreBucketImage n T cpuSet,
            coreRepresentativesSpec n T cpuSet)) n =
          some (coreBucketImage n T cpuSet,
            coreRepresentativesSpec n T cpuSet) := by
        simp [coreSetStep, hmem]
      have h2 : ¬(n ∈ cpuSet ∧ ∀ y, y < n → y ∈ cpuSet → y % T ≠ n % T) := by
        rintro ⟨h, -⟩; exact hmem h
      rw [hstep, himg, hrep, if_neg hmem, if_neg h2]

theorem getCurrentCoreSet_eq (P T : ℕ) (hT : 0 < T) (cpuSet : Finset ℕ) :
    getCurrentCoreSet P T cpuSet = some (coreRepresentativesSpec P T cpuSet) := by
  unfold getCurrentCoreSet
  rw [getCurrentCoreSetAux_eq T hT cpuSet P]
  rfl

theorem coreRepresentativesSpec_mem (P T : ℕ) (cpuSet : Finset ℕ) (x : ℕ) :
    x ∈ coreRepresentativesSpec P T cpuSet ↔
      x ∈ cpuSet ∧ x < P ∧
        ∀ y, y ∈ cpuSet → y < P → y % T = x % T → x ≤ y := by
  simp only [coreRepresentativesSpec, Finset.mem_filter, Finset.mem_range]
  constructor
  · rintro ⟨hx, hmem, hall⟩
    refine ⟨hmem, hx, fun y hymem _ hyb => ?_⟩
    by_contra hlt
    exact hall y (Nat.lt_of_not_le hlt) hymem hyb
  · rintro ⟨hmem, hx, hmin⟩
    refine ⟨hx, hmem, fun y hy hymem hyb => ?_⟩
    exact absurd (hmin y hymem (hy.trans hx) hyb) (Nat.not_le_of_lt hy)

theorem coreRepresentativesSpec_subset (P T : ℕ) (cpuSet : Finset ℕ) :
    coreRepresentativesSpec P T cpuSet ⊆ cpuSet := by
  intro x hx
  exact ((coreRepresentativesSpec_mem P T cpuSet x).mp hx).1

theorem coreRepresentativesSpec_lt (P T : ℕ) (cpuSet : Finset ℕ) :
    ∀ x ∈ coreRepresentativesSpec P T cpuSet, x < P := by
  intro x hx
  exact ((coreRepresentativesSpec_mem P T cpuSet x).mp hx).2.1

theorem coreRepresentativesSpec_card_le (P T : ℕ) (hT : 0 < T)
    (cpuSet : Finset ℕ) :
    (coreRepresentativesSpec P T cpuSet).card ≤ T := by
  have := Finset.card_range T
  calc (coreRepresentativesSpec P T cpuSet).card
      ≤ (Finset.range T).card := by
        apply Finset.card_le_card_of_injOn (fun x => x % T)
        · intro a _
          exact Finset.mem_range.mpr (Nat.mod_lt _ hT)
        · intro a ha b hb hab
          rw [Finset.mem_coe, coreRepresentativesSpec_mem] at ha hb
          have h1 : a ≤ b := ha.2.2 b hb.1 hb.2.1 hab.symm
          have h2 : b ≤ a := hb.2.2 a ha.1 ha.2.1 hab
          omega
    _ = T := Finset.card_range T

theorem ascendingMembers_mem (P : ℕ) (s : Finset ℕ) (x : ℕ) :
    x ∈ ascendingMembers P s ↔ x < P ∧ x ∈ s := by
  simp [ascendingMembers]

theorem ascendingMembers_nodup (P : ℕ) (s : Finset ℕ) :
    (ascendingMembers P s).Nodup :=
  (List.nodup_range P).filter _

theorem ascendingMembers_sorted (P : ℕ) (s : Finset ℕ) :
    (ascendingMembers P s).Sorted (· < ·) :=
  (List.sorted_lt_range P).filter _

theorem ascendingMembers_eq_sort (P : ℕ) (s : Finset ℕ)
    (h : ∀ x ∈ s, x < P) :
    ascendingMembers P s = Finset.sort (· ≤ ·) s := by
  have hperm : List.Perm (ascendingMembers P s) (Finset.sort (· ≤ ·) s) := by
    rw [List.perm_ext_iff_of_nodup (ascendingMembers_nodup P s)
      (Finset.sort_nodup (· ≤ ·) s)]
    intro a
    rw [ascendingMembers_mem, Finset.mem_sort]
    exact ⟨fun ha => ha.2, fun ha => ⟨h a ha, ha⟩⟩
  exact List.eq_of_perm_of_sorted hperm
    ((ascendingMembers_sorted P s).le_of_lt) (Finset.sort_sorted (· ≤ ·) s)

theorem ascendingMembers_length (P : ℕ) (s : Finset ℕ)
    (h : ∀ x ∈ s, x < P) :
    (ascendingMembers P s).length = s.card := by
  rw [ascendingMembers_eq_sort P s h, Finset.length_sort]

theorem ascendingMembers_toFinset (P : ℕ) (s : Finset ℕ)
    (h : ∀ x ∈ s, x < P) :
    (ascendingMembers P s).toFinset = s := by
  ext x
  rw [List.mem_toFinset, ascendingMembers_mem]
  exact ⟨fun hx => hx.2, fun hx => ⟨h x hx, hx⟩⟩

theorem same_bucket_cases (T p q : ℕ) (hpq : p ≤ q)
    (hmod : q % T = p % T) : q = p ∨ p + T ≤ q := by
  rcases Nat.lt_or_ge q (p + T) with h | h
  · left
    have hd : (q - p) % T = 0 := Nat.sub_mod_eq_zero_of_mod_eq hmod
    have hlt : q - p < T := by omega
    rw [Nat.mod_eq_of_lt hlt] at hd
    omega
  · right; exact h

theorem selectAllCoreCpusLoop_eq (P T : ℕ) (hT : 0 < T)
    (cpuSet : Finset ℕ) :
    ∀ fuel p acc, P ≤ p + fuel →
      selectAllCoreCpusLoop P T cpuSet fuel p acc =
        acc ∪ (Finset.range P).filter
          (fun q => q ∈ cpuSet ∧ q % T = p % T ∧ p ≤ q) := by
  intro fuel
  induction fuel with
  | zero =>
    intro p acc h
    have hempty : (Finset.range P).filter
        (fun q => q ∈ cpuSet ∧ q % T = p % T ∧ p ≤ q) = ∅ := by
      rw [Finset.filter_eq_empty_iff]
      intro q hq
      rw [Finset.mem_range] at hq
      rintro ⟨-, -, hpq⟩
      omega
    simp [selectAllCoreCpusLoop, hempty]
  | succ n ih =>
    intro p acc h
    by_cases hp : p < P
    · have hrec : selectAllCoreCpusLoop P T cpuSet (n + 1) p acc =
          selectAllCoreCpusLoop P T cpuSet n (p + T)
            (if p ∈ cpuSet then insert p acc else acc) := by
        simp [selectAllCoreCpusLoop, hp]
      rw [hrec, ih (p + T) _ (by omega)]
      have hmodstep : (p + T) % T = p % T := Nat.add_mod_right p T
      ext q
      simp only [Finset.mem_union, Finset.mem_filter, Finset.mem_range,
        hmodstep]
      by_cases hmem : p ∈ cpuSet
      · rw [if_pos hmem]
        simp only [Finset.mem_insert]
        constructor
        · rintro ((rfl | hacc) | ⟨hq1, hq2, hq3, hq4⟩)
          · exact Or.inr ⟨hp, hmem, rfl, Nat.le_refl _⟩
          · exact Or.inl hacc
          · exact Or.inr ⟨hq1, hq2, hq3, by omega⟩
        · rintro (hacc | ⟨hq1, hq2, hq3, hq4⟩)
          · exact Or.inl (Or.inr hacc)
          · rcases same_bucket_cases T p q hq4 hq3 with rfl | hstep
            · exact Or.inl (Or.inl rfl)
            · exact Or.inr ⟨hq1, hq2, hq3, hstep⟩
      · rw [if_neg hmem]
        constructor
        · rintro (hacc | ⟨hq1, hq2, hq3, hq4⟩)
          · exact Or.inl hacc
          · exact Or.inr ⟨hq1, hq2, hq3, by omega⟩
        · rintro (hacc | ⟨hq1, hq2, hq3, hq4⟩)
          · exact Or.inl hacc
          · rcases same_bucket_cases T p q hq4 hq3 with rfl | hstep
            · exact absurd hq2 hmem
            · exact Or.inr ⟨hq1, hq2, hq3, hstep⟩
    · have hempty : (Finset.range P).filter
          (fun q => q ∈ cpuSet ∧ q % T = p % T ∧ p ≤ q) = ∅ := by
        rw [Finset.filter_eq_empty_iff]
        intro q hq
        rw [Finset.mem_range] at hq
        rintro ⟨-, -, hpq⟩
        omega
      simp [selectAllCoreCpusLoop, hp, hempty]

theorem selectAllCoreCpus_eq (P T : ℕ) (hT : 0 < T) (cpuSet : Finset ℕ)
    (physicalCoreId : ℕ) :
    selectAllCoreCpus P T cpuSet physicalCoreId =
      some (siblingSet P T cpuSet physicalCoreId) := by
  unfold selectAllCoreCpus
  rw [if_neg (Nat.pos_iff_ne_zero.mp hT)]
  rw [selectAllCoreCpusLoop_eq P T hT cpuSet (P + 1) (physicalCoreId % T) ∅
    (by omega)]
  congr 1
  rw [Finset.empty_union]
  unfold siblingSet
  apply Finset.filter_congr
  intro q hq
  rw [Finset.mem_range] at hq
  have hmm : physicalCoreId % T % T = physicalCoreId % T :=
    Nat.mod_eq_of_lt (Nat.mod_lt _ hT)
  constructor
  · rintro ⟨h1, h2, -⟩
    exact ⟨h1, by rw [h2, hmm]⟩
  · rintro ⟨h1, h2⟩
    refine ⟨h1, by rw [h2, hmm], ?_⟩
    calc physicalCoreId % T = q % T % T := by rw [h2, hmm]
      _ ≤ q % T := Nat.mod_le _ _
      _ ≤ q := Nat.mod_le _ _

theorem flatMap_congr_mem {α β : Type} (l : List α) (f g : α → List β)
    (h : ∀ a ∈ l, f a = g a) : l.flatMap f = l.flatMap g := by
  induction l with
  | nil => rfl
  | cons a t ih =>
    rw [List.flatMap_cons, List.flatMap_cons, h a (List.mem_cons_self a t),
      ih (fun x hx => h x (List.mem_cons_of_mem a hx))]

theorem flatMap_singleton_eq_map {α β : Type} (l : List α) (g : α → β) :
    l.flatMap (fun x => [g x]) = l.map g := by
  induction l with
  | nil => rfl
  | cons a t ih => rw [List.flatMap_cons, ih, List.map_cons]; rfl

theorem range_map_option_elim {β : Type} (L : List ℕ) (d : β) (f : ℕ → β) :
    (List.range L.length).map (fun k => (L[k]?).elim d f) = L.map f := by
  apply List.ext_getElem
  · simp
  · intro i h1 h2
    simp only [List.getElem_map, List.getElem_range]
    rw [List.getElem?_eq_getElem (by simpa using h2)]
    rfl

/-- Claim C3 (code bug): with a topology of one record whose `cpu cores`
field is 0 (so `totalNumberOfCpuCores = 0`) and processor 0 available,
`getCurrentCoreSet` evaluates `processorId % totalNumberOfCpuCores` with a
zero divisor — undefined behaviour, not the guarded empty-set behaviour the
specification mandates. -/
theorem c3_zero_total_cores_unguarded :
    collectBasicCpuInformation [⟨0, 0, 0, 0, 0⟩] = ({0}, 1, 0) ∧
    getCurrentCoreSet 1 0 {0} = none ∧
    constructOpenMpManager (fun _ => false) false 1 0 (some {0}) = none := by
  refine ⟨by decide, by decide, by decide⟩

/-- Claim C4: for every permitted set and `totalNumberOfCpuCores > 0`, the
computed core set contains, for each bucket, exactly the smallest available
logical processor id of that bucket (among the ids the loop scans, i.e.
below `numberOfProcessors`), and nothing else; with 16 logical processors,
8 physical cores and a full permitted set it has exactly 8 members. -/
theorem c4_core_deduplication (P T : ℕ) (cpuSet : Finset ℕ) (hT : 0 < T) :
    (∃ core, getCurrentCoreSet P T cpuSet = some core ∧
      ∀ x, x ∈ core ↔ x ∈ cpuSet ∧ x < P ∧
        ∀ y, y ∈ cpuSet → y < P → y % T = x % T → x ≤ y) ∧
    (∃ core16, getCurrentCoreSet 16 8 (Finset.range 16) = some core16 ∧
      core16.card = 8) := by
  constructor
  · exact ⟨coreRepresentativesSpec P T cpuSet,
      getCurrentCoreSet_eq P T hT cpuSet,
      fun x => coreRepresentativesSpec_mem P T cpuSet x⟩
  · exact ⟨coreRepresentativesSpec 16 8 (Finset.range 16),
      getCurrentCoreSet_eq 16 8 (by decide) (Finset.range 16), by decide⟩

theorem c4_core_deduplication_witness :
    ∃ core16, getCurrentCoreSet 16 8 (Finset.range 16) = some core16 ∧
      core16.card = 8 :=
  (c4_core_deduplication 16 8 (Finset.range 16) (by decide)).2

theorem constructOpenMpManager_eq (env : String → Bool) (gpu0 : Bool)
    (P T : ℕ) (osAffinity : Option (Finset ℕ)) (hT : 0 < T) :
    constructOpenMpManager env gpu0 P T osAffinity =
      some ⟨openMpEnvVars.any env, gpu0, getCurrentCpuSet P osAffinity,
        coreRepresentativesSpec P T (getCurrentCpuSet P osAffinity)⟩ := by
  simp only [constructOpenMpManager, getCurrentCoreSet_eq P T hT]

/-- Claim C9: after construction with a positive total core count the
derived sets satisfy `currentCoreSet ⊆ currentCpuSet` and
`currentCoreSet.card ≤ totalNumberOfCpuCores`, and no post-construction
operation changes either set. -/
theorem c9_processor_set_invariants (env : String → Bool) (gpu0 : Bool)
    (P T : ℕ) (osAffinity : Option (Finset ℕ)) (st : OpenMpManagerState)
    (hT : 0 < T)
    (hc : constructOpenMpManager env gpu0 P T osAffinity = some st) :
    st.currentCoreSet ⊆ st.currentCpuSet ∧
    st.currentCoreSet.card ≤ T ∧
    ∀ (op : MgrOp) (st2 : OpenMpManagerState),
      (applyOp P T op st2).1.currentCpuSet = st2.currentCpuSet ∧
      (applyOp P T op st2).1.currentCoreSet = st2.currentCoreSet := by
  rw [constructOpenMpManager_eq env gpu0 P T osAffinity hT,
    Option.some.injEq] at hc
  subst hc
  refine ⟨coreRepresentativesSpec_subset P T _,
    coreRepresentativesSpec_card_le P T hT _, ?_⟩
  intro op st2
  cases op <;> exact ⟨rfl, rfl⟩

theorem c9_processor_set_invariants_witness :
    (⟨false, false, {0, 1}, {0}⟩ : OpenMpManagerState).currentCoreSet ⊆
      (⟨false, false, {0, 1}, {0}⟩ : OpenMpManagerState).currentCpuSet ∧
    (⟨false, false, {0, 1}, {0}⟩ : OpenMpManagerState).currentCoreSet.card ≤ 1 ∧
    ∀ (op : MgrOp) (st2 : OpenMpManagerState),
      (applyOp 2 1 op st2).1.currentCpuSet = st2.currentCpuSet ∧
      (applyOp 2 1 op st2).1.currentCoreSet = st2.currentCoreSet :=
  c9_processor_set_invariants (fun _ => false) false 2 1 (some {0, 1})
    ⟨false, false, {0, 1}, {0}⟩ (by decide) (by decide)

/-- Claim C7: for an index below the representative count the lookup
returns the index-th member of `currentCoreSet` in ascending id order
(stated as equality with the sorted listing, position by position); for an
index at or beyond the count it hits the `LOG(FATAL)` abort, modelled as
`none`, and the binding operation surfaces it as `fatalError` rather than
recovering. -/
theorem c7_physical_core_id (P : ℕ) (core : Finset ℕ)
    (hsub : ∀ x ∈ core, x < P) (k : ℕ) (st : OpenMpManagerState)
    (hst : st.currentCoreSet = core) :
    getPhysicalCoreId P core k = (Finset.sort (· ≤ ·) core)[k]? ∧
    (core.card ≤ k →
      getPhysicalCoreId P core k = none ∧
      bindCurrentThreadToLogicalCoreCpu P st k =
        [AffinityAction.fatalError]) := by
  have hL : ascendingMembers P core = Finset.sort (· ≤ ·) core :=
    ascendingMembers_eq_sort P core hsub
  have h1 : getPhysicalCoreId P core k = (Finset.sort (· ≤ ·) core)[k]? := by
    unfold getPhysicalCoreId
    rw [hL]
  refine ⟨h1, fun hk => ?_⟩
  have hnone : getPhysicalCoreId P core k = none := by
    rw [h1]
    apply List.getElem?_eq_none
    rw [Finset.length_sort]
    exact hk
  refine ⟨hnone, ?_⟩
  unfold bindCurrentThreadToLogicalCoreCpu
  rw [hst, hnone]

theorem c7_physical_core_id_witness :
    getPhysicalCoreId 2 {0, 1} 5 =
      (Finset.sort (· ≤ ·) ({0, 1} : Finset ℕ))[5]? ∧
    (({0, 1} : Finset ℕ).card ≤ 5 →
      getPhysicalCoreId 2 {0, 1} 5 = none ∧
      bindCurrentThreadToLogicalCoreCpu 2 ⟨false, false, {0, 1}, {0, 1}⟩ 5 =
        [AffinityAction.fatalError]) :=
  c7_physical_core_id 2 {0, 1} (by decide) 5
    ⟨false, false, {0, 1}, {0, 1}⟩ rfl

/-- Claim C5: `isThreadsBindAllowed` is true exactly when no listed
environment variable was present at construction and the GPU flag is
currently false; when it is false, the worker fan-out and the
reserve-non-primary-core operation perform no affinity call at all. -/
theorem c5_pinning_policy (env : String → Bool) (P T : ℕ)
    (st : OpenMpManagerState)
    (henv : st.isAnyOpenMpEnvVarSpecified = openMpEnvVars.any env) :
    (isThreadsBindAllowed st = true ↔
      ((∀ v ∈ openMpEnvVars, env v = false) ∧ st.isGpuEnabled = false)) ∧
    (isThreadsBindAllowed st = false →
      bindOpenMpThreads P st = [] ∧
      bindCurrentThreadToNonPrimaryCoreIfPossible P T st = []) := by
  constructor
  · unfold isThreadsBindAllowed
    rw [henv]
    simp only [Bool.and_eq_true, Bool.not_eq_true', List.any_eq_false,
      Bool.not_eq_true]
  · intro h
    constructor
    · unfold bindOpenMpThreads
      rw [h]
      rfl
    · unfold bindCurrentThreadToNonPrimaryCoreIfPossible
      rw [h]
      rfl

theorem c5_pinning_policy_witness :
    (isThreadsBindAllowed ⟨true, false, {0, 1}, {0}⟩ = true ↔
      ((∀ v ∈ openMpEnvVars, (fun _ => true) v = false) ∧
        (⟨true, false, {0, 1}, {0}⟩ : OpenMpManagerState).isGpuEnabled =
          false)) ∧
    (isThreadsBindAllowed ⟨true, false, {0, 1}, {0}⟩ = false →
      bindOpenMpThreads 2 ⟨true, false, {0, 1}, {0}⟩ = [] ∧
      bindCurrentThreadToNonPrimaryCoreIfPossible 2 1
        ⟨true, false, {0, 1}, {0}⟩ = []) :=
  c5_pinning_policy (fun _ => true) 2 1 ⟨true, false, {0, 1}, {0}⟩
    (by decide)

theorem bindOne_elim (P : ℕ) (st : OpenMpManagerState) (k : ℕ) :
    bindCurrentThreadToLogicalCoreCpu P st k =
      [((ascendingMembers P st.currentCoreSet)[k]?).elim
        AffinityAction.fatalError
        (fun pid => AffinityAction.setAffinity {pid})] := by
  unfold bindCurrentThreadToLogicalCoreCpu getPhysicalCoreId
  cases (ascendingMembers P st.currentCoreSet)[k]? <;> rfl

/-- Claim C6: when binding is allowed the worker fan-out first limits the
parallel worker count to the representative count (so never more than one
worker per physical core), and binds worker `k` to the singleton mask of
the `k`-th representative: the masks listed are singletons of a
duplicate-free list whose members are exactly `currentCoreSet`, so they
are pairwise disjoint and their union is `currentCoreSet`. -/
theorem c6_fanout_partition (env : String → Bool) (gpu0 : Bool)
    (P T : ℕ) (osAffinity : Option (Finset ℕ)) (st : OpenMpManagerState)
    (hT : 0 < T)
    (hc : constructOpenMpManager env gpu0 P T osAffinity = some st)
    (hallow : isThreadsBindAllowed st = true) :
    ∃ pids : List ℕ,
      bindOpenMpThreads P st =
        AffinityAction.setNumThreads st.currentCoreSet.card ::
          pids.map (fun p => AffinityAction.setAffinity {p}) ∧
      pids.length = st.currentCoreSet.card ∧
      pids.Nodup ∧
      pids.toFinset = st.currentCoreSet := by
  rw [constructOpenMpManager_eq env gpu0 P T osAffinity hT,
    Option.some.injEq] at hc
  subst hc
  set A := getCurrentCpuSet P osAffinity with hA
  set core := coreRepresentativesSpec P T A with hcore
  have hsub : ∀ x ∈ core, x < P := coreRepresentativesSpec_lt P T A
  have hlen : (ascendingMembers P core).length = core.card :=
    ascendingMembers_length P core hsub
  refine ⟨ascendingMembers P core, ?_, hlen, ascendingMembers_nodup P core,
    ascendingMembers_toFinset P core hsub⟩
  unfold bindOpenMpThreads
  rw [hallow]
  have hcoreproj :
      (OpenMpManagerState.mk (openMpEnvVars.any env) gpu0 A
        core).currentCoreSet = core := rfl
  rw [if_pos rfl]
  congr 1
  have h1 : ∀ k ∈ List.range (ascendingMembers P core).length,
      bindCurrentThreadToLogicalCoreCpu P
        ⟨openMpEnvVars.any env, gpu0, A, core⟩ k =
        [((ascendingMembers P core)[k]?).elim AffinityAction.fatalError
          (fun pid => AffinityAction.setAffinity {pid})] := by
    intro k _
    exact bindOne_elim P ⟨openMpEnvVars.any env, gpu0, A, core⟩ k
  rw [hcoreproj, ← hlen]
  rw [flatMap_congr_mem _ _ _ h1, flatMap_singleton_eq_map,
    range_map_option_elim]

theorem c6_fanout_partition_witness :
    ∃ pids : List ℕ,
      bindOpenMpThreads 2 ⟨false, false, {0, 1}, {0}⟩ =
        AffinityAction.setNumThreads
          (⟨false, false, {0, 1}, {0}⟩ :
            OpenMpManagerState).currentCoreSet.card ::
          pids.map (fun p => AffinityAction.setAffinity {p}) ∧
      pids.length =
        (⟨false, false, {0, 1}, {0}⟩ :
          OpenMpManagerState).currentCoreSet.card ∧
      pids.Nodup ∧
      pids.toFinset =
        (⟨false, false, {0, 1}, {0}⟩ :
          OpenMpManagerState).currentCoreSet :=
  c6_fanout_partition (fun _ => false) false 2 1 (some {0, 1})
    ⟨false, false, {0, 1}, {0}⟩ (by decide) (by decide) (by decide)

/-- Claim C8: when binding is allowed and at least one representative
exists, reserve-non-primary-core picks representative index 1 when more
than one representative exists and index 0 otherwise, and pins the calling
thread to the full sibling set of the resolved representative: the mask is
exactly the available processors in the same bucket, so it contains every
available processor congruent to the representative modulo the total core
count, not just the representative itself. -/
theorem c8_reserve_non_primary (env : String → Bool) (gpu0 : Bool)
    (P T : ℕ) (osAffinity : Option (Finset ℕ)) (st : OpenMpManagerState)
    (hT : 0 < T)
    (hc : constructOpenMpManager env gpu0 P T osAffinity = some st)
    (hallow : isThreadsBindAllowed st = true)
    (hpos : 0 < st.currentCoreSet.card) :
    ∃ rep,
      getPhysicalCoreId P st.currentCoreSet
        (if 1 < st.currentCoreSet.card then 1 else 0) = some rep ∧
      bindCurrentThreadToNonPrimaryCoreIfPossible P T st =
        [AffinityAction.setAffinity (siblingSet P T st.currentCpuSet rep)] ∧
      (∀ p, p ∈ st.currentCpuSet → p < P → p % T = rep % T →
        p ∈ siblingSet P T st.currentCpuSet rep) ∧
      rep ∈ siblingSet P T st.currentCpuSet rep := by
  rw [constructOpenMpManager_eq env gpu0 P T osAffinity hT,
    Option.some.injEq] at hc
  subst hc
  set A := getCurrentCpuSet P osAffinity with hA
  set core := coreRepresentativesSpec P T A with hcore
  have hsub : ∀ x ∈ core, x < P := coreRepresentativesSpec_lt P T A
  have hlen : (ascendingMembers P core).length = core.card :=
    ascendingMembers_length P core hsub
  have hcardproj :
      (OpenMpManagerState.mk (openMpEnvVars.any env) gpu0 A
        core).currentCoreSet = core := rfl
  rw [hcardproj] at hpos ⊢
  have hidx : (if 1 < core.card then 1 else 0) <
      (ascendingMembers P core).length := by
    rw [hlen]
    by_cases h : 1 < core.card
    · rw [if_pos h]; exact h
    · rw [if_neg h]; exact hpos
  set idx := (if 1 < core.card then 1 else 0) with hidxdef
  set rep := (ascendingMembers P core)[idx] with hrep
  have hmemL : rep ∈ ascendingMembers P core := List.getElem_mem hidx
  have hrepP : rep < P := ((ascendingMembers_mem P core rep).mp hmemL).1
  have hrepcore : rep ∈ core := ((ascendingMembers_mem P core rep).mp hmemL).2
  have hrepA : rep ∈ A := coreRepresentativesSpec_subset P T A hrepcore
  have hget : getPhysicalCoreId P core idx = some rep := by
    unfold getPhysicalCoreId
    exact List.getElem?_eq_getElem hidx
  refine ⟨rep, hget, ?_, ?_, ?_⟩
  · have hgproj : getPhysicalCoreId P core
        (if 1 < core.card then 1 else 0) = some rep := hget
    simp only [bindCurrentThreadToNonPrimaryCoreIfPossible, hallow, if_true,
      bindCurrentThreadToLogicalCoreCpus, hgproj,
      selectAllCoreCpus_eq P T hT]
  · intro p hpA hpP hpb
    unfold siblingSet
    rw [Finset.mem_filter, Finset.mem_range]
    exact ⟨hpP, hpA, hpb⟩
  · unfold siblingSet
    rw [Finset.mem_filter, Finset.mem_range]
    exact ⟨hrepP, hrepA, rfl⟩

theorem c8_reserve_non_primary_witness :
    ∃ rep,
      getPhysicalCoreId 2
        (⟨false, false, {0, 1}, {0}⟩ :
          OpenMpManagerState).currentCoreSet
        (if 1 < (⟨false, false, {0, 1}, {0}⟩ :
            OpenMpManagerState).currentCoreSet.card then 1 else 0) =
        some rep ∧
      bindCurrentThreadToNonPrimaryCoreIfPossible 2 1
        ⟨false, false, {0, 1}, {0}⟩ =
        [AffinityAction.setAffinity (siblingSet 2 1 {0, 1} rep)] ∧
      (∀ p, p ∈ ({0, 1} : Finset ℕ) → p < 2 → p % 1 = rep % 1 →
        p ∈ siblingSet 2 1 {0, 1} rep) ∧
      rep ∈ siblingSet 2 1 {0, 1} rep :=
  c8_reserve_non_primary (fun _ => false) false 2 1 (some {0, 1})
    ⟨false, false, {0, 1}, {0}⟩ (by decide) (by decide) (by decide)
    (by decide)

theorem extract_at_equation (s rest : List Char) (h : strstrAt s = some rest) :
    extractProcessorSpeedFromModelName 0 s =
      (if strncmp3 (((strtodQ rest.tail).2).dropWhile isSpaceC)
            ['G', 'H', 'z'] ||
          (decide ((strtodQ rest.tail).1 < 100) &&
            !strncmp3 (((strtodQ rest.tail).2).dropWhile isSpaceC)
              ['M', 'H', 'z']) then
        cToUnsigned (1000 * (strtodQ rest.tail).1 + 1 / 2)
      else cToUnsigned ((strtodQ rest.tail).1 + 1 / 2)) := by
  unfold extractProcessorSpeedFromModelName
  rw [h]
  rfl

/-- Claim C2: frequency extraction finds the first `@`, parses the number
after it, skips whitespace and compares the next up-to-3 characters with
the unit names; the value counts as GHz exactly when the unit is `GHz` or
(the unit is not `MHz` and the value is below 100), and the stored result
is the round-half-up of `value * 1000` (GHz) or of `value` (MHz).  The
five reference inputs evaluate as the specification lists, and a nonzero
stored value is never overwritten by a later extraction. -/
theorem c2_frequency_extraction :
    (∀ s rest, strstrAt s = some rest →
      ((strncmp3 (((strtodQ rest.tail).2).dropWhile isSpaceC)
            ['G', 'H', 'z'] = true ∨
          (¬ strncmp3 (((strtodQ rest.tail).2).dropWhile isSpaceC)
              ['M', 'H', 'z'] = true ∧ (strtodQ rest.tail).1 < 100)) →
        extractProcessorSpeedFromModelName 0 s =
          cToUnsigned (1000 * (strtodQ rest.tail).1 + 1 / 2)) ∧
      (¬ (strncmp3 (((strtodQ rest.tail).2).dropWhile isSpaceC)
            ['G', 'H', 'z'] = true ∨
          (¬ strncmp3 (((strtodQ rest.tail).2).dropWhile isSpaceC)
              ['M', 'H', 'z'] = true ∧ (strtodQ rest.tail).1 < 100)) →
        extractProcessorSpeedFromModelName 0 s =
          cToUnsigned ((strtodQ rest.tail).1 + 1 / 2))) ∧
    extractProcessorSpeedFromModelName 0
      "Intel(R) Xeon @ 2.40GHz".toList = some 2400 ∧
    extractProcessorSpeedFromModelName 0
      "Model @ 2400MHz".toList = some 2400 ∧
    extractProcessorSpeedFromModelName 0
      "Model @ 0.933".toList = some 933 ∧
    extractProcessorSpeedFromModelName 0
      "Model @ 150".toList = some 150 ∧
    extractProcessorSpeedFromModelName 0
      "Model 2400".toList = some 0 ∧
    (∀ v s, v ≠ 0 →
      extractProcessorSpeedFromModelName v s = some v) := by
  refine ⟨?_, ?_, ?_, ?_, ?_, ?_, ?_⟩
  · intro s rest h
    rw [extract_at_equation s rest h]
    have hiff : (strncmp3 (((strtodQ rest.tail).2).dropWhile isSpaceC)
          ['G', 'H', 'z'] ||
        (decide ((strtodQ rest.tail).1 < 100) &&
          !strncmp3 (((strtodQ rest.tail).2).dropWhile isSpaceC)
            ['M', 'H', 'z'])) = true ↔
        (strncmp3 (((strtodQ rest.tail).2).dropWhile isSpaceC)
            ['G', 'H', 'z'] = true ∨
          (¬ strncmp3 (((strtodQ rest.tail).2).dropWhile isSpaceC)
              ['M', 'H', 'z'] = true ∧ (strtodQ rest.tail).1 < 100)) := by
      simp only [Bool.or_eq_true, Bool.and_eq_true, Bool.not_eq_true',
        Bool.not_eq_true, decide_eq_true_eq]
      tauto
    constructor
    · intro hcond
      rw [if_pos (hiff.mpr hcond)]
    · intro hcond
      rw [if_neg (fun hb => hcond (hiff.mp hb))]
  · norm_num +decide [extractProcessorSpeedFromModelName, strstrAt, strtodQ,
      takeDigits, parseExp, expDigits, mantissaQ, digitsToNat, isSpaceC,
      isDigitC, strncmp3, cToUnsigned, truncQ, digitVal_0, digitVal_1,
      digitVal_2, digitVal_3, digitVal_4, digitVal_5, digitVal_9]
  · norm_num +decide [extractProcessorSpeedFromModelName, strstrAt, strtodQ,
      takeDigits, parseExp, expDigits, mantissaQ, digitsToNat, isSpaceC,
      isDigitC, strncmp3, cToUnsigned, truncQ, digitVal_0, digitVal_1,
      digitVal_2, digitVal_3, digitVal_4, digitVal_5, digitVal_9]
  · norm_num +decide [extractProcessorSpeedFromModelName, strstrAt, strtodQ,
      takeDigits, parseExp, expDigits, mantissaQ, digitsToNat, isSpaceC,
      isDigitC, strncmp3, cToUnsigned, truncQ, digitVal_0, digitVal_1,
      digitVal_2, digitVal_3, digitVal_4, digitVal_5, digitVal_9]
  · norm_num +decide [extractProcessorSpeedFromModelName, strstrAt, strtodQ,
      takeDigits, parseExp, expDigits, mantissaQ, digitsToNat, isSpaceC,
      isDigitC, strncmp3, cToUnsigned, truncQ, digitVal_0, digitVal_1,
      digitVal_2, digitVal_3, digitVal_4, digitVal_5, digitVal_9]
  · decide
  · intro v s hv
    rcases hs : strstrAt s with _ | rest <;>
      simp [extractProcessorSpeedFromModelName, hs, hv]

theorem c2_frequency_extraction_witness :
    (7 : ℕ) ≠ 0 ∧
    extractProcessorSpeedFromModelName 7
      "Intel(R) Xeon @ 2.40GHz".toList = some 7 :=
  ⟨by decide, c2_frequency_extraction.2.2.2.2.2.2
    7 "Intel(R) Xeon @ 2.40GHz".toList (by decide)⟩

/-- Claim C10: the already-set guard at line 144 tests the stored value for
being nonzero, not whether an extraction ran; so when a first extraction
stores 0 (here from a non-numeric token after `@`), a later `model name`
line containing `@` still sets the clock speed exactly as a fresh
extraction would. -/
theorem c10_zero_speed_not_locked :
    (∀ s s2, extractProcessorSpeedFromModelName 0 s = some 0 →
      (extractProcessorSpeedFromModelName 0 s).bind
        (fun v => extractProcessorSpeedFromModelName v s2) =
        extractProcessorSpeedFromModelName 0 s2) ∧
    extractProcessorSpeedFromModelName 0 "Model @ x".toList = some 0 ∧
    extractProcessorSpeedFromModelName 0
      "Intel(R) Xeon(R) @ 2.40GHz".toList = some 2400 := by
  refine ⟨?_, ?_, ?_⟩
  · intro s s2 h
    rw [h]
    rfl
  · norm_num +decide [extractProcessorSpeedFromModelName, strstrAt, strtodQ,
      takeDigits, parseExp, expDigits, mantissaQ, digitsToNat, isSpaceC,
      isDigitC, strncmp3, cToUnsigned, truncQ]
  · norm_num +decide [extractProcessorSpeedFromModelName, strstrAt, strtodQ,
      takeDigits, parseExp, expDigits, mantissaQ, digitsToNat, isSpaceC,
      isDigitC, strncmp3, cToUnsigned, truncQ, digitVal_0, digitVal_2,
      digitVal_4]

theorem c10_zero_speed_not_locked_witness :
    (extractProcessorSpeedFromModelName 0 "Model @ x".toList).bind
      (fun v => extractProcessorSpeedFromModelName v
        "Intel(R) Xeon(R) @ 2.40GHz".toList) =
      extractProcessorSpeedFromModelName 0
        "Intel(R) Xeon(R) @ 2.40GHz".toList :=
  c10_zero_speed_not_locked.1 "Model @ x".toList
    "Intel(R) Xeon(R) @ 2.40GHz".toList
    (by norm_num +decide [extractProcessorSpeedFromModelName, strstrAt,
      strtodQ, takeDigits, parseExp, expDigits, mantissaQ, digitsToNat,
      isSpaceC, isDigitC, strncmp3, cToUnsigned, truncQ])
